import Mathlib

/-
Shallow embedding of the rss-reruns repository: the tree-accessor layer
(src/elementwrapper.py) and the feed scheduler (src/rssreruns/feedmodifier.py).
Python strings become String, optional element text becomes Option String,
raised exceptions become Except String results, and the mutable lxml tree
becomes explicit state passing.
-/

/-- Python str.lower() for the ASCII texts the code compares ("True", "False",
"chronological", ...): lowercase every character. -/
def lowerStr (s : String) : String := String.mk (s.data.map Char.toLower)

/-- An XML element as seen by elementwrapper.py: its (already namespace-resolved)
tag, its text (none models an absent text, Python None), and its child elements
in document order. lxml's find keys on resolved tags, so resolution
(try_unpack / _QName, modeled below) happens before these operations. -/
inductive Elem where
  | mk (tag : String) (text : Option String) (children : List Elem)

/-- Tag accessor of an element. -/
def Elem.tag : Elem → String
  | .mk t _ _ => t

/-- Text accessor of an element. -/
def Elem.text : Elem → Option String
  | .mk _ x _ => x

/-- Children accessor of an element. -/
def Elem.children : Elem → List Elem
  | .mk _ _ c => c

@[simp] theorem Elem.tag_mk (t : String) (x : Option String) (c : List Elem) :
    (Elem.mk t x c).tag = t := rfl

@[simp] theorem Elem.text_mk (t : String) (x : Option String) (c : List Elem) :
    (Elem.mk t x c).text = x := rfl

@[simp] theorem Elem.children_mk (t : String) (x : Option String)
    (c : List Elem) : (Elem.mk t x c).children = c := rfl

/-- element.find(name, nsmap) over a child list: first child whose tag matches. -/
def findTag (cs : List Elem) (tag : String) : Option Elem :=
  cs.find? (fun c => c.tag == tag)

/-- Whether some child of the list carries the given tag. -/
def hasTag (cs : List Elem) (tag : String) : Bool :=
  (findTag cs tag).isSome

@[simp] theorem findTag_nil (tag : String) : findTag [] tag = none := rfl

theorem findTag_cons (c : Elem) (cs : List Elem) (tag : String) :
    findTag (c :: cs) tag =
      (if c.tag == tag then some c else findTag cs tag) := by
  simp only [findTag, List.find?]
  cases h : (c.tag == tag) <;> simp [h]

theorem hasTag_cons (c : Elem) (cs : List Elem) (tag : String) :
    hasTag (c :: cs) tag = ((c.tag == tag) || hasTag cs tag) := by
  simp only [hasTag, findTag_cons]
  cases h : (c.tag == tag) <;> simp [h]

/-- ElementWrapper._maybe_get_subelement: the first child with the given
(resolved) name, if any. -/
def Elem.findChild (e : Elem) (tag : String) : Option Elem :=
  findTag e.children tag

/-- ElementWrapper.__contains__: a child with the given name exists
(presence of the element, regardless of its text). -/
def Elem.containsChild (e : Elem) (tag : String) : Bool :=
  hasTag e.children tag

/-- ElementWrapper.__getitem__, i.e. _get_or_create_subelement: return the found
child, or append a fresh empty child (ET.SubElement appends at the end).
The pair is (updated parent, accessed child). -/
def Elem.getItem (e : Elem) (tag : String) : Elem × Elem :=
  match findTag e.children tag with
  | some c => (e, c)
  | none => (Elem.mk e.tag e.text (e.children ++ [Elem.mk tag none []]),
             Elem.mk tag none [])

/-- Assignment parent[tag].text = txt on a child list: set the text of the first
child with the tag, or append a fresh child carrying the text (get-or-create
followed by the text setter). -/
def setTextIn (tag : String) (txt : Option String) : List Elem → List Elem
  | [] => [Elem.mk tag txt []]
  | c :: cs =>
      if c.tag == tag then Elem.mk c.tag txt c.children :: cs
      else c :: setTextIn tag txt cs

/-- Assignment parent[tag].text = txt at the element level. -/
def Elem.setChildText (e : Elem) (tag : String) (txt : Option String) : Elem :=
  Elem.mk e.tag e.text (setTextIn tag txt e.children)

/-- FeedModifier._create_defaults_if_missing: for each (tag, text) default, only
when no child with that tag exists, create it and set its text (the text may
itself be none, creating an empty element). Presence of the element, not
presence of nonempty text, is the test. -/
def create_defaults_if_missing (parent : Elem) :
    List (String × Option String) → Elem
  | [] => parent
  | (tag, text) :: rest =>
      if parent.containsChild tag then create_defaults_if_missing parent rest
      else create_defaults_if_missing (parent.setChildText tag text) rest

theorem hasTag_setTextIn (cs : List Elem) (tag : String) (txt : Option String)
    (tg : String) :
    hasTag (setTextIn tag txt cs) tg = (hasTag cs tg || (tag == tg)) := by
  induction cs with
  | nil =>
      simp only [setTextIn, hasTag_cons, Elem.tag_mk]
      simp [hasTag]
  | cons c cs ih =>
      by_cases h : c.tag == tag
      · have hct : c.tag = tag := by simpa using h
        simp only [setTextIn, h, if_true, hasTag_cons, Elem.tag_mk, hct]
        cases htg : (tag == tg) <;> simp [hasTag_cons, Elem.tag_mk, hct, htg]
      · have h' : (c.tag == tag) = false := by simpa using h
        simp only [setTextIn, h', Bool.false_eq_true, if_false, hasTag_cons, ih]
        cases hh : (c.tag == tg) <;> simp [hh]

theorem setTextIn_of_not_hasTag (cs : List Elem) (tag : String)
    (txt : Option String) (h : hasTag cs tag = false) :
    setTextIn tag txt cs = cs ++ [Elem.mk tag txt []] := by
  induction cs with
  | nil => rfl
  | cons c cs ih =>
      rw [hasTag_cons] at h
      have hc : (c.tag == tag) = false := by
        cases hv : (c.tag == tag) <;> simp [hv] at h ⊢
      have hcs : hasTag cs tag = false := by
        cases hv : hasTag cs tag <;> simp [hc, hv] at h ⊢
      simp only [setTextIn, hc, Bool.false_eq_true, if_false, List.cons_append]
      rw [ih hcs]

theorem findTag_append_left (cs ds : List Elem) (tg : String)
    (h : hasTag cs tg = true) : findTag (cs ++ ds) tg = findTag cs tg := by
  simp only [hasTag, Option.isSome_iff_exists] at h
  obtain ⟨c, hc⟩ := h
  simp only [findTag, List.find?_append] at *
  rw [hc]
  rfl

theorem containsChild_setChildText (p : Elem) (tag tg : String)
    (txt : Option String) :
    (p.setChildText tag txt).containsChild tg =
      (p.containsChild tg || (tag == tg)) := by
  obtain ⟨pt, px, pc⟩ := p
  simp only [Elem.setChildText, Elem.containsChild, Elem.children_mk,
    hasTag_setTextIn]

theorem containsChild_create_defaults (d : List (String × Option String)) :
    ∀ (p : Elem) (tg : String), p.containsChild tg = true →
      (create_defaults_if_missing p d).containsChild tg = true := by
  induction d with
  | nil => intro p tg h; exact h
  | cons kv rest ih =>
      intro p tg h
      obtain ⟨tag, txt⟩ := kv
      by_cases hc : p.containsChild tag
      · simp only [create_defaults_if_missing, hc, if_true]
        exact ih p tg h
      · simp only [create_defaults_if_missing, hc, Bool.false_eq_true, if_false]
        apply ih
        rw [containsChild_setChildText, h]
        rfl

theorem create_defaults_contains_keys (d : List (String × Option String)) :
    ∀ (p : Elem), ∀ kv ∈ d,
      (create_defaults_if_missing p d).containsChild kv.1 = true := by
  induction d with
  | nil => intro p kv h; simp at h
  | cons hd rest ih =>
      intro p kv hmem
      obtain ⟨tag, txt⟩ := hd
      rcases List.mem_cons.mp hmem with heq | htail
      · rw [heq]
        by_cases hc : p.containsChild tag
        · simp only [create_defaults_if_missing, hc, if_true]
          exact containsChild_create_defaults rest p tag hc
        · simp only [create_defaults_if_missing, hc, Bool.false_eq_true,
            if_false]
          apply containsChild_create_defaults rest
          rw [containsChild_setChildText]
          simp
      · by_cases hc : p.containsChild tag
        · simp only [create_defaults_if_missing, hc, if_true]
          exact ih p kv htail
        · simp only [create_defaults_if_missing, hc, Bool.false_eq_true,
            if_false]
          exact ih _ kv htail

theorem create_defaults_of_all_present (d : List (String × Option String)) :
    ∀ (p : Elem), (∀ kv ∈ d, p.containsChild kv.1 = true) →
      create_defaults_if_missing p d = p := by
  induction d with
  | nil => intro p _; rfl
  | cons hd rest ih =>
      intro p hall
      obtain ⟨tag, txt⟩ := hd
      have hc : p.containsChild tag = true := hall (tag, txt) (by simp)
      simp only [create_defaults_if_missing, hc, if_true]
      exact ih p (fun kv hkv => hall kv (List.mem_cons_of_mem _ hkv))

theorem findChild_create_defaults (d : List (String × Option String)) :
    ∀ (p : Elem) (tg : String), p.containsChild tg = true →
      (create_defaults_if_missing p d).findChild tg = p.findChild tg := by
  induction d with
  | nil => intro p tg _; rfl
  | cons hd rest ih =>
      intro p tg h
      obtain ⟨tag, txt⟩ := hd
      by_cases hc : p.containsChild tag
      · simp only [create_defaults_if_missing, hc, if_true]
        exact ih p tg h
      · have hc' : p.containsChild tag = false := by simpa using hc
        simp only [create_defaults_if_missing, hc, Bool.false_eq_true, if_false]
        have hstep : (p.setChildText tag txt).findChild tg = p.findChild tg := by
          obtain ⟨pt, px, pc⟩ := p
          simp only [Elem.setChildText, Elem.findChild, Elem.children_mk]
          simp only [Elem.containsChild, Elem.children_mk] at hc' h
          rw [setTextIn_of_not_hasTag pc tag txt hc']
          exact findTag_append_left pc _ tg h
        rw [← hstep]
        apply ih
        rw [containsChild_setChildText, h]
        rfl

/-- C3: default seeding (_create_defaults_if_missing) is idempotent, and it never
overwrites a child element that is already present, including a
present-but-empty one: any tag already present keeps its exact first child
(element and text) untouched. -/
theorem c3_seed_defaults_idempotent_write_once (p : Elem)
    (d : List (String × Option String)) :
    create_defaults_if_missing (create_defaults_if_missing p d) d =
      create_defaults_if_missing p d
    ∧ ∀ tg : String, p.containsChild tg = true →
        (create_defaults_if_missing p d).findChild tg = p.findChild tg := by
  constructor
  · exact create_defaults_of_all_present d _
      (fun kv hkv => create_defaults_contains_keys d p kv hkv)
  · intro tg h
    exact findChild_create_defaults d p tg h

/-- Concrete instance for c3_seed_defaults_idempotent_write_once: a parent that
already has an empty <reran/> child keeps it (the default "False" is not
written), and a second seeding run changes nothing. -/
theorem c3_seed_defaults_witness :
    (Elem.mk "entry_data" none [Elem.mk "reran" none []]).containsChild "reran"
      = true
    ∧ create_defaults_if_missing
        (create_defaults_if_missing
          (Elem.mk "entry_data" none [Elem.mk "reran" none []])
          [("reran", some "False")])
        [("reran", some "False")] =
      create_defaults_if_missing
        (Elem.mk "entry_data" none [Elem.mk "reran" none []])
        [("reran", some "False")]
    ∧ (create_defaults_if_missing
        (Elem.mk "entry_data" none [Elem.mk "reran" none []])
        [("reran", some "False")]).findChild "reran" =
      (Elem.mk "entry_data" none [Elem.mk "reran" none []]).findChild "reran" :=
  ⟨rfl,
   (c3_seed_defaults_idempotent_write_once
      (Elem.mk "entry_data" none [Elem.mk "reran" none []])
      [("reran", some "False")]).1,
   (c3_seed_defaults_idempotent_write_once
      (Elem.mk "entry_data" none [Elem.mk "reran" none []])
      [("reran", some "False")]).2 "reran" rfl⟩

/-- C10: ElementWrapper.__getitem__ get-or-creates: afterwards the child is always
present, and when it was absent the read has the side effect of appending one
new child. -/
theorem c10_getitem_creates (e : Elem) (tag : String) :
    (e.getItem tag).1.containsChild tag = true
    ∧ (e.containsChild tag = false →
        (e.getItem tag).1.children.length = e.children.length + 1) := by
  obtain ⟨et, ex, ec⟩ := e
  constructor
  · cases h : findTag ec tag with
    | some c =>
        simp only [Elem.getItem, Elem.children_mk, h, Elem.containsChild,
          hasTag]
        simp [h]
    | none =>
        simp only [Elem.getItem, Elem.children_mk, h, Elem.containsChild,
          Elem.tag_mk, Elem.text_mk, hasTag, findTag, List.find?_append]
        simp only [findTag] at h
        rw [h]
        simp [List.find?]
  · intro habs
    cases h : findTag ec tag with
    | some c =>
        simp only [Elem.containsChild, Elem.children_mk, hasTag, h] at habs
        simp at habs
    | none =>
        simp [Elem.getItem, h]

/-- Concrete instance for c10_getitem_creates: reading a missing "reran" child of
an empty entry_data element creates it. -/
theorem c10_getitem_witness :
    (Elem.mk "entry_data" none []).containsChild "reran" = false
    ∧ ((Elem.mk "entry_data" none []).getItem "reran").1.containsChild "reran"
        = true
    ∧ ((Elem.mk "entry_data" none []).getItem "reran").1.children.length =
        (Elem.mk "entry_data" none []).children.length + 1 :=
  ⟨rfl,
   (c10_getitem_creates (Elem.mk "entry_data" none []) "reran").1,
   (c10_getitem_creates (Elem.mk "entry_data" none []) "reran").2 rfl⟩

/-- ElementWrapper._QName: resolve a localname plus an optional prefix-or-URI
against the namespace map (an association list prefix → URI, first match wins,
mirroring dict lookup on unique keys). With no prefix given and no preferred
prefix configured, the bare name is used; otherwise the string is first tried
as a prefix (a key of nsmap), then as a URI (a value of nsmap); if it is
neither, a ValueError is raised. QName(uri, nm) prints as Clark notation. -/
def qname (nsmap : List (String × String)) (pref : Option String) (nm : String)
    (prefixOrUri : Option String) : Except String String :=
  match prefixOrUri, pref with
  | none, none => .ok nm
  | pu, wp =>
    let p := pu.getD (wp.getD "")
    match nsmap.lookup p with
    | some uri => .ok ("\x7b" ++ uri ++ "\x7d" ++ nm)
    | none =>
      if nsmap.any (fun kv => kv.2 == p) then .ok ("\x7b" ++ p ++ "\x7d" ++ nm)
      else .error ("Argument could not be determined to be a namespace " ++
        "prefix or URI: " ++ p)

/-- Identifier forms accepted by try_unpack: a plain string, or
a (prefix-or-uri, localname) tuple. Tuple-ness is carried by the constructor,
exactly as the Python code branches on isinstance(subelement_name, tuple). -/
inductive SubId where
  | str (s : String)
  | pair (pu nm : String)

/-- Fullmatch of the clark_notation regex: an opening brace, any non-whitespace
run, a closing brace, any non-whitespace run. Equivalently: the string starts
with the opening brace, a closing brace occurs later, and no character is
whitespace. -/
def clarkMatch (s : String) : Bool :=
  (match s.data with
   | [] => false
   | c :: rest => c == '\x7b' && rest.contains '\x7d')
  && s.data.all (fun c => !c.isWhitespace)

/-- name.split(":", maxsplit=1) over the character list: the part before the
first colon and the part after it. -/
def splitColonAux : List Char → List Char × List Char
  | [] => ([], [])
  | c :: cs =>
      if c == ':' then ([], cs)
      else ((c :: (splitColonAux cs).1), (splitColonAux cs).2)

/-- name.split(":", maxsplit=1) on strings. -/
def splitColon (s : String) : String × String :=
  (String.mk (splitColonAux s.data).1, String.mk (splitColonAux s.data).2)

/-- try_unpack's dispatch: a tuple is unpacked as (prefix_or_uri, localname); a
string in Clark notation is used verbatim; a string with a colon is split once
into prefix and localname; any other string is a bare local name resolved with
the wrapper's preferred prefix. -/
def try_unpack (nsmap : List (String × String)) (pref : Option String) :
    SubId → Except String String
  | .pair pu nm => qname nsmap pref nm (some pu)
  | .str s =>
    if clarkMatch s then .ok s
    else if s.data.contains ':' then
      qname nsmap pref (splitColon s).2 (some (splitColon s).1)
    else qname nsmap pref s none

/-- C8: _QName on a supplied prefix-or-URI string: a key of the namespace map
resolves to that prefix's URI; otherwise a value of the map is used verbatim
as the URI; otherwise the call fails with an error. -/
theorem c8_qname_resolution (nsmap : List (String × String))
    (wp : Option String) (nm s : String) :
    (∀ u, nsmap.lookup s = some u →
      qname nsmap wp nm (some s) = .ok ("\x7b" ++ u ++ "\x7d" ++ nm))
    ∧ (nsmap.lookup s = none → nsmap.any (fun kv => kv.2 == s) = true →
      qname nsmap wp nm (some s) = .ok ("\x7b" ++ s ++ "\x7d" ++ nm))
    ∧ (nsmap.lookup s = none → nsmap.any (fun kv => kv.2 == s) = false →
      ∃ msg, qname nsmap wp nm (some s) = .error msg) := by
  refine ⟨fun u hu => ?_, fun hk hv => ?_, fun hk hv => ?_⟩
  · cases wp <;> simp [qname, hu]
  · cases wp <;> simp [qname, hk, hv]
  · cases wp <;> simp [qname, hk, hv]

/-- Concrete instance for c8_qname_resolution over the reruns namespace map:
the prefix resolves through the map, the URI is taken verbatim, and an unknown
string fails. -/
theorem c8_qname_witness :
    qname [("reruns", "https://github.com/hannahlog/rss-reruns")] none
        "channel_data" (some "reruns") =
      .ok "\x7bhttps://github.com/hannahlog/rss-reruns\x7dchannel_data"
    ∧ qname [("reruns", "https://github.com/hannahlog/rss-reruns")] none
        "channel_data" (some "https://github.com/hannahlog/rss-reruns") =
      .ok "\x7bhttps://github.com/hannahlog/rss-reruns\x7dchannel_data"
    ∧ ∃ msg, qname [("reruns", "https://github.com/hannahlog/rss-reruns")] none
        "channel_data" (some "nope") = .error msg :=
  ⟨(c8_qname_resolution [("reruns", "https://github.com/hannahlog/rss-reruns")]
      none "channel_data" "reruns").1
      "https://github.com/hannahlog/rss-reruns" (by decide),
   (c8_qname_resolution [("reruns", "https://github.com/hannahlog/rss-reruns")]
      none "channel_data"
      "https://github.com/hannahlog/rss-reruns").2.1 (by decide) (by decide),
   (c8_qname_resolution [("reruns", "https://github.com/hannahlog/rss-reruns")]
      none "channel_data" "nope").2.2 (by decide) (by decide)⟩

/-- C9: a bare two-character local name is resolved as a whole name with the
preferred prefix and is never unpacked as a (prefix, localname) pair; the pair
form is taken only for an actual tuple identifier. -/
theorem c9_no_implicit_unpacking (nsmap : List (String × String))
    (wp : Option String) (a b : Char) (hbrace : ¬(a = '\x7b' ∧ b = '\x7d'))
    (ha : a ≠ ':') (hb : b ≠ ':') :
    try_unpack nsmap wp (.str (String.mk [a, b])) =
      qname nsmap wp (String.mk [a, b]) none
    ∧ try_unpack nsmap wp (.pair (String.mk [a]) (String.mk [b])) =
      qname nsmap wp (String.mk [b]) (some (String.mk [a])) := by
  constructor
  · have ha' : ¬(':' = a) := fun h => ha h.symm
    have hb' : ¬(':' = b) := fun h => hb h.symm
    have hclark : clarkMatch (String.mk [a, b]) = false := by
      simp only [clarkMatch, String.data]
      rcases Classical.em (a = '\x7b') with hab | hab
      · have hbb : ¬('\x7d' = b) := fun hc => hbrace ⟨hab, hc.symm⟩
        simp [hab, hbb]
      · simp [hab]
    simp [try_unpack, hclark, ha', hb']
  · rfl

/-- Concrete instance for c9_no_implicit_unpacking: the two-character name "ab"
stays whole. -/
theorem c9_no_implicit_unpacking_witness :
    (¬('a' = '\x7b' ∧ 'b' = '\x7d')) ∧ ('a' ≠ ':') ∧ ('b' ≠ ':')
    ∧ try_unpack [] none (.str (String.mk ['a', 'b'])) =
        qname [] none (String.mk ['a', 'b']) none
    ∧ try_unpack [] none (.pair (String.mk ['a']) (String.mk ['b'])) =
        qname [] none (String.mk ['b']) (some (String.mk ['a'])) :=
  ⟨by decide, by decide, by decide,
   (c9_no_implicit_unpacking [] none 'a' 'b' (by decide) (by decide)
      (by decide)).1,
   (c9_no_implicit_unpacking [] none 'a' 'b' (by decide) (by decide)
      (by decide)).2⟩

/-- Texts of the channel-level reruns:channel_data children that the scheduler
and titling code read or write. A field value none models Python None text
(an absent or empty element); the seeding in __init__ normally fills all of
them. -/
structure ChannelMeta where
  order : Option String
  rate : Option String
  run_forever : Option String
  original_title : Option String
  title_pre : Option String
  title_suf : Option String
  entry_title_pre : Option String
  entry_title_suf : Option String

/-- Per-entry state: the entry's own pubDate and title texts (RSS dialect)
plus the texts of its reruns:entry_data children. -/
structure Entry where
  title : Option String
  pubDate : Option String
  original_pubdate : Option String
  original_title : Option String
  reran : Option String

/-- The scheduler's view of a loaded feed: channel metadata, the channel title
text, and the entries in feed_entries() document order. Entries are identified
by their index in that order. -/
structure FeedState where
  channel : ChannelMeta
  channel_title : Option String
  entries : List Entry

/-- FeedModifier.run_forever property getter:
self._meta_channel["run_forever"].text.lower() == "true". Reading None text
raises AttributeError (None has no .lower()). -/
def run_forever_read (s : FeedState) : Except String Bool :=
  match s.channel.run_forever with
  | none => .error "AttributeError"
  | some t => .ok (lowerStr t == "true")

/-- The eligibility test inside _entries_to_rerun:
meta_entry["reran"].text.lower() == "false"; None text raises AttributeError. -/
def reran_read (e : Entry) : Except String Bool :=
  match e.reran with
  | none => .error "AttributeError"
  | some t => .ok (lowerStr t == "false")

/-- The list comprehension of _entries_to_rerun, collecting (in document order,
starting at index i) the indices of entries whose reran text reads "false";
the first failing read aborts the whole comprehension. -/
def not_reran_idx : List Entry → Nat → Except String (List Nat)
  | [], _ => .ok []
  | e :: es, i =>
    match reran_read e with
    | .error m => .error m
    | .ok b =>
      match not_reran_idx es (i + 1) with
      | .error m => .error m
      | .ok rest => .ok (if b then i :: rest else rest)

/-- FeedModifier._mark_all_not_reran: set every entry's reran text to "False". -/
def mark_all_not_reran (s : FeedState) : FeedState :=
  { s with entries := s.entries.map (fun e => { e with reran := some "False" }) }

/-- FeedModifier._entries_to_rerun: the eligible entries; when none are eligible
and run_forever reads true, all entries are first marked not-reran and the full
entry list is returned. run_forever is only read when the eligible list is
empty (Python's short-circuit and). The updated state rides along. -/
def entries_to_rerun (s : FeedState) : Except String (List Nat) × FeedState :=
  match not_reran_idx s.entries 0 with
  | .error m => (.error m, s)
  | .ok notReran =>
    if notReran.isEmpty then
      match run_forever_read s with
      | .error m => (.error m, s)
      | .ok true =>
        let s' := mark_all_not_reran s
        (.ok (List.range s'.entries.length), s')
      | .ok false => (.ok notReran, s)
    else (.ok notReran, s)

/-- In-place update of the entry at one index of the entry list. -/
def updateAt : List Entry → Nat → (Entry → Entry) → List Entry
  | [], _, _ => []
  | e :: es, 0, f => f e :: es
  | e :: es, i + 1, f => e :: updateAt es i f

/-- The per-entry effect of _rebroadcast_entry: pubDate gets the formatted
datetime text and reran becomes "True"; nothing else is written. -/
def bumpEntry (dt : String) (e : Entry) : Entry :=
  { e with pubDate := some dt, reran := some "True" }

/-- FeedModifier._rebroadcast_entry (RSS dialect): write the formatted datetime
text to the entry's pubDate (update_entry_pubdate) and set its reran flag to
"True". The formatted datetime string dt is a parameter: datetime.now /
dateutil / email.utils are external collaborators. -/
def rebroadcast_entry (dt : String) (s : FeedState) (i : Nat) : FeedState :=
  { s with entries := updateAt s.entries i (bumpEntry dt) }

/-- The for-loop over selected entries in rebroadcast: each selected index is
rebroadcast in order. -/
def broadcastAll (dt : String) (s : FeedState) (idxs : List Nat) : FeedState :=
  idxs.foldl (rebroadcast_entry dt) s

/-- Modelled from the spec: the external date collaborator
(dateutil.parser.parse), specified only as a lossless parse/format pair whose
parsed values are chronologically ordered. ISO-format YYYY-MM-DD texts are
ordered exactly by the number their digits spell, so a parsed date is embedded
as that number; texts that are not digits-and-dashes fail to parse. -/
def parseDate (s : String) : Option Nat :=
  if s.data.all (fun c => c.isDigit || c == '-') && s.data.any (fun c => c.isDigit)
  then
    some ((s.data.filter (fun c => c.isDigit)).foldl
      (fun n c => 10 * n + (c.toNat - 48)) 0)
  else none

/-- FeedModifier.get_entry_original_pubdate: read the entry's original_pubdate
text (None raises ValueError) and parse it (malformed text raises in the
parser). -/
def get_entry_original_pubdate (s : FeedState) (i : Nat) : Except String Nat :=
  match s.entries[i]? with
  | none => .error "IndexError"
  | some e =>
    match e.original_pubdate with
    | none => .error "Entry missing original_pubdate"
    | some d =>
      match parseDate d with
      | none => .error "ParserError"
      | some k => .ok k

/-- CPython's list.sort(key=f) computes every element's key first, in list
order, before comparing; a raising key aborts the sort. This pairs each index
with its parsed original_pubdate. -/
def keyedDates (s : FeedState) : List Nat → Except String (List (Nat × Nat))
  | [] => .ok []
  | i :: is =>
    match get_entry_original_pubdate s i with
    | .error m => .error m
    | .ok k =>
      match keyedDates s is with
      | .error m => .error m
      | .ok rest => .ok ((i, k) :: rest)

/-- Comparison by parsed original_pubdate, the sort key of
entries.sort(key=self.get_entry_original_pubdate). -/
def dateLe : (Nat × Nat) → (Nat × Nat) → Prop := fun a b => a.2 ≤ b.2

instance : DecidableRel dateLe := fun a b => Nat.decLe a.2 b.2

instance : IsTotal (Nat × Nat) dateLe := ⟨fun a b => Nat.le_total a.2 b.2⟩

instance : IsTrans (Nat × Nat) dateLe := ⟨fun _ _ _ h h2 => Nat.le_trans h h2⟩

/-- entries.sort(key=self.get_entry_original_pubdate): Python's sort is stable
and ascending; a stable ascending sort is a unique function of the keyed list,
embedded here by insertion sort on the (index, key) pairs. -/
def sortByDate (s : FeedState) (idxs : List Nat) : Except String (List Nat) :=
  match keyedDates s idxs with
  | .error m => .error m
  | .ok ps => .ok ((ps.insertionSort dateLe).map Prod.fst)

/-- The branch test self._meta_channel["order"].text.lower() == "chronological";
None text raises AttributeError. -/
def order_read (s : FeedState) : Except String Bool :=
  match s.channel.order with
  | none => .error "AttributeError"
  | some t => .ok (lowerStr t == "chronological")

/-- The while-loop of FeedModifier.rebroadcast, with an explicit fuel bound:
exhausting the fuel while remaining > 0 yields the error "diverges", marking a
run of the source loop that never terminates. shuffle is the external
random.shuffle collaborator; acc is the accumulated reran list. -/
def rebroadcastLoop (shuffle : List Nat → List Nat) (dt : String) :
    Nat → Nat → List Nat → FeedState → Except String (List Nat) × FeedState
  | _, 0, acc, s => (.ok acc, s)
  | 0, _ + 1, _, s => (.error "diverges", s)
  | fuel + 1, rem + 1, acc, s =>
    match entries_to_rerun s with
    | (.error m, s') => (.error m, s')
    | (.ok idxs, s') =>
      if idxs.length ≤ rem + 1 then
        rebroadcastLoop shuffle dt fuel (rem + 1 - idxs.length) (acc ++ idxs)
          (broadcastAll dt s' idxs)
      else
        match order_read s' with
        | .error m => (.error m, s')
        | .ok true =>
          match sortByDate s' idxs with
          | .error m => (.error m, s')
          | .ok sorted =>
            (.ok (acc ++ sorted.take (rem + 1)),
             broadcastAll dt s' (sorted.take (rem + 1)))
        | .ok false =>
          (.ok (acc ++ (shuffle idxs).take (rem + 1)),
           broadcastAll dt s' ((shuffle idxs).take (rem + 1)))

/-- FeedModifier.rebroadcast(num): a negative count raises ValueError before
anything is touched; otherwise the while-loop runs with the requested count. -/
def rebroadcast (shuffle : List Nat → List Nat) (dt : String) (fuel : Nat)
    (num : Int) (s : FeedState) : Except String (List Nat) × FeedState :=
  if num < 0 then
    (.error "Cannot select negative number of entries", s)
  else rebroadcastLoop shuffle dt fuel num.toNat [] s

/-- Python truthiness of the optional prefix/suffix arguments: if prefix: is
false for None and for the empty string. -/
def truthy : Option String → Bool
  | none => false
  | some t => !(t == "")

/-- FeedModifier.set_feed_title: store truthy prefix/suffix arguments in the
channel metadata, then join the present-and-non-None parts of
(title_prefix, original_title, title_suffix) as the new channel title. -/
def set_feed_title (pre suf : Option String) (s : FeedState) : FeedState :=
  let c0 := s.channel
  let c1 := if truthy pre then { c0 with title_pre := pre } else c0
  let c2 := if truthy suf then { c1 with title_suf := suf } else c1
  let parts := [c2.title_pre, c2.original_title, c2.title_suf].filterMap id
  { s with channel := c2,
           channel_title := some (String.intercalate " " parts) }

/-- One entry's pass of the set_entry_titles loop: collect the present parts of
(entry_title_prefix, original_title, entry_title_suffix); if the entry has an
original_pubdate text, parse it (raising on malformed text) and strftime-format
the present affixes with it (strft is the external datetime.strftime
collaborator, taking the date text and the format string); a part missing from
the dict raises KeyError at the final title join. Only the entry's title is
written. -/
def entry_new_title (c : ChannelMeta) (strft : String → String → String)
    (e : Entry) : Except String Entry :=
  match e.original_pubdate with
  | some d =>
    match parseDate d with
    | none => .error "ParserError"
    | some _ =>
      match (c.entry_title_pre).map (strft d), e.original_title,
          (c.entry_title_suf).map (strft d) with
      | some p, some o, some sf =>
        .ok { e with title := some (String.intercalate " " [p, o, sf]) }
      | _, _, _ => .error "KeyError"
  | none =>
    match c.entry_title_pre, e.original_title, c.entry_title_suf with
    | some p, some o, some sf =>
      .ok { e with title := some (String.intercalate " " [p, o, sf]) }
    | _, _, _ => .error "KeyError"

/-- The for-loop over entries in set_entry_titles: entries are retitled in
order; the first raising entry aborts the loop, and the mutations already made
to earlier entries are kept (exceptions do not roll anything back). -/
def setTitlesGo (c : ChannelMeta) (strft : String → String → String) :
    List Entry → List Entry × Option String
  | [] => ([], none)
  | e :: es =>
    match entry_new_title c strft e with
    | .error m => (e :: es, some m)
    | .ok e' =>
      let r := setTitlesGo c strft es
      (e' :: r.1, r.2)

/-- The channel-metadata effect of set_entry_titles: truthy prefix/suffix
arguments are stored in entry_title_prefix / entry_title_suffix. -/
def entryTitleChannel (pre suf : Option String) (c0 : ChannelMeta) :
    ChannelMeta :=
  let c1 := if truthy pre then { c0 with entry_title_pre := pre } else c0
  if truthy suf then { c1 with entry_title_suf := suf } else c1

/-- FeedModifier.set_entry_titles: store truthy prefix/suffix arguments in the
channel metadata, then retitle every entry. -/
def set_entry_titles (strft : String → String → String) (pre suf : Option String)
    (s : FeedState) : Except String Unit × FeedState :=
  match (setTitlesGo (entryTitleChannel pre suf s.channel) strft s.entries).2 with
  | some m => (.error m,
      { s with channel := entryTitleChannel pre suf s.channel,
               entries :=
                 (setTitlesGo (entryTitleChannel pre suf s.channel) strft
                   s.entries).1 })
  | none => (.ok (),
      { s with channel := entryTitleChannel pre suf s.channel,
               entries :=
                 (setTitlesGo (entryTitleChannel pre suf s.channel) strft
                   s.entries).1 })

/-- The write-once projection of an entry list at an index: the entry's
original_pubdate and original_title texts. -/
def origMeta (es : List Entry) (j : Nat) : Option (Option String × Option String) :=
  (es[j]?).map (fun e => (e.original_pubdate, e.original_title))

theorem updateAt_getElem? (es : List Entry) :
    ∀ (i : Nat) (f : Entry → Entry) (j : Nat),
      (updateAt es i f)[j]? = if i = j then (es[j]?).map f else es[j]? := by
  induction es with
  | nil =>
      intro i f j
      by_cases h : i = j <;> simp [updateAt, h]
  | cons e es ih =>
      intro i f j
      cases i with
      | zero => cases j <;> simp [updateAt]
      | succ i =>
          cases j with
          | zero => simp [updateAt]
          | succ j => simpa [updateAt, Nat.succ_ne_succ] using ih i f j

theorem origMeta_updateAt (es : List Entry) (i : Nat) (f : Entry → Entry)
    (j : Nat)
    (hf : ∀ e, (f e).original_pubdate = e.original_pubdate ∧
      (f e).original_title = e.original_title) :
    origMeta (updateAt es i f) j = origMeta es j := by
  simp only [origMeta, updateAt_getElem?]
  by_cases h : i = j
  · simp only [h, if_true]
    cases es[j]? with
    | none => rfl
    | some e => simp [(hf e).1, (hf e).2]
  · simp [h]

theorem broadcastAll_entries_origMeta (dt : String) :
    ∀ (idxs : List Nat) (s : FeedState) (j : Nat),
      origMeta (broadcastAll dt s idxs).entries j = origMeta s.entries j := by
  intro idxs
  induction idxs with
  | nil => intro s j; rfl
  | cons i is ih =>
      intro s j
      have hstep : origMeta (rebroadcast_entry dt s i).entries j =
          origMeta s.entries j := by
        simp only [rebroadcast_entry]
        exact origMeta_updateAt s.entries i (bumpEntry dt) j
          (fun e => ⟨rfl, rfl⟩)
      calc origMeta (broadcastAll dt s (i :: is)).entries j
          = origMeta (broadcastAll dt (rebroadcast_entry dt s i) is).entries j
            := rfl
        _ = origMeta (rebroadcast_entry dt s i).entries j := ih _ j
        _ = origMeta s.entries j := hstep

theorem mark_all_origMeta (s : FeedState) (j : Nat) :
    origMeta (mark_all_not_reran s).entries j = origMeta s.entries j := by
  simp only [mark_all_not_reran, origMeta, List.getElem?_map]
  cases s.entries[j]? <;> rfl

theorem entries_to_rerun_origMeta (s : FeedState) (j : Nat) :
    origMeta (entries_to_rerun s).2.entries j = origMeta s.entries j := by
  unfold entries_to_rerun
  cases h : not_reran_idx s.entries 0 with
  | error m => rfl
  | ok l =>
      by_cases he : l.isEmpty
      · cases hr : run_forever_read s with
        | error m => simp [he, hr]
        | ok b => cases b <;> simp [he, hr, mark_all_origMeta]
      · simp [he]

theorem loop_origMeta (shuffle : List Nat → List Nat) (dt : String) :
    ∀ (fuel rem : Nat) (acc : List Nat) (s : FeedState) (j : Nat),
      origMeta ((rebroadcastLoop shuffle dt fuel rem acc s).2).entries j =
        origMeta s.entries j := by
  intro fuel
  induction fuel with
  | zero =>
      intro rem acc s j
      cases rem <;> rfl
  | succ f ih =>
      intro rem acc s j
      cases rem with
      | zero => rfl
      | succ r =>
          have hfr : origMeta (entries_to_rerun s).2.entries j =
              origMeta s.entries j := entries_to_rerun_origMeta s j
          rcases hres : entries_to_rerun s with ⟨r0, s'⟩
          rw [hres] at hfr
          cases r0 with
          | error m => simp [rebroadcastLoop, hres, hfr]
          | ok idxs =>
              simp only [rebroadcastLoop, hres]
              by_cases hlen : idxs.length ≤ r + 1
              · simp only [hlen, if_true]
                rw [ih, broadcastAll_entries_origMeta, hfr]
              · simp only [hlen, if_false]
                cases ho : order_read s' with
                | error m => simp [hfr]
                | ok b =>
                    cases b with
                    | true =>
                        cases hsort : sortByDate s' idxs with
                        | error m => simp [hfr]
                        | ok sorted =>
                            simp [broadcastAll_entries_origMeta, hfr]
                    | false => simp [broadcastAll_entries_origMeta, hfr]

theorem rebroadcast_origMeta (shuffle : List Nat → List Nat) (dt : String)
    (fuel : Nat) (num : Int) (s : FeedState) (j : Nat) :
    origMeta ((rebroadcast shuffle dt fuel num s).2).entries j =
      origMeta s.entries j := by
  unfold rebroadcast
  by_cases h : num < 0
  · simp [h]
  · simp [h, loop_origMeta]

theorem entry_new_title_frame (c : ChannelMeta) (strft : String → String → String)
    (e e' : Entry) (h : entry_new_title c strft e = .ok e') :
    e'.original_pubdate = e.original_pubdate
    ∧ e'.original_title = e.original_title := by
  unfold entry_new_title at h
  split at h
  · split at h
    · exact absurd h (by simp)
    · split at h
      · injection h with h'
        subst h'
        exact ⟨rfl, rfl⟩
      · exact absurd h (by simp)
  · split at h
    · injection h with h'
      subst h'
      exact ⟨rfl, rfl⟩
    · exact absurd h (by simp)

theorem setTitlesGo_origMeta (c : ChannelMeta) (strft : String → String → String) :
    ∀ (es : List Entry) (j : Nat),
      origMeta (setTitlesGo c strft es).1 j = origMeta es j := by
  intro es
  induction es with
  | nil => intro j; rfl
  | cons e es ih =>
      intro j
      cases hr : entry_new_title c strft e with
      | error m => simp [setTitlesGo, hr]
      | ok e' =>
          obtain ⟨h1, h2⟩ := entry_new_title_frame c strft e e' hr
          cases j with
          | zero => simp [setTitlesGo, hr, origMeta, h1, h2]
          | succ j => simpa [setTitlesGo, hr, origMeta] using ih j

theorem set_entry_titles_origMeta (strft : String → String → String)
    (pre suf : Option String) (s : FeedState) (j : Nat) :
    origMeta ((set_entry_titles strft pre suf s).2).entries j =
      origMeta s.entries j := by
  unfold set_entry_titles
  cases h : (setTitlesGo (entryTitleChannel pre suf s.channel) strft
      s.entries).2 <;> simp [h, setTitlesGo_origMeta]

/-- C7: an entry's original_pubdate and original_title, once set, are unchanged
by any rebroadcast call and by any title-update call (set_feed_title,
set_entry_titles): those operations write only other fields. -/
theorem c7_original_metadata_invariant (shuffle : List Nat → List Nat)
    (dt : String) (fuel : Nat) (num : Int) (pre suf pre2 suf2 : Option String)
    (strft : String → String → String) (s : FeedState) (j : Nat)
    (d t : String) (h : origMeta s.entries j = some (some d, some t)) :
    origMeta ((rebroadcast shuffle dt fuel num s).2).entries j =
      some (some d, some t)
    ∧ origMeta (set_feed_title pre suf s).entries j = some (some d, some t)
    ∧ origMeta ((set_entry_titles strft pre2 suf2 s).2).entries j =
      some (some d, some t) := by
  refine ⟨?_, ?_, ?_⟩
  · rw [rebroadcast_origMeta]; exact h
  · exact h
  · rw [set_entry_titles_origMeta]; exact h

/-- A seeded channel-metadata record with the constructor defaults, used by the
concrete scenarios below. -/
def seededChannel : ChannelMeta :=
  { order := some "chronological", rate := some "1",
    run_forever := some "True", original_title := some "Some Feed",
    title_pre := some "[Reruns:]", title_suf := none,
    entry_title_pre := some "[Rerun:]",
    entry_title_suf := some "(Originally published: %b %d %Y)" }

/-- A seeded, not-yet-rerun entry used by the concrete scenarios below. -/
def freshEntryA : Entry :=
  { title := some "A", pubDate := some "old",
    original_pubdate := some "2021-01-01", original_title := some "A",
    reran := some "False" }

/-- A one-entry feed in its freshly-seeded state. -/
def oneEntryState : FeedState :=
  { channel := seededChannel, channel_title := some "Some Feed",
    entries := [freshEntryA] }

/-- Concrete instance for c7_original_metadata_invariant: a one-entry feed whose
entry has both write-once fields set keeps them across rebroadcast and both
title updates. -/
theorem c7_original_metadata_witness :
    origMeta oneEntryState.entries 0 = some (some "2021-01-01", some "A")
    ∧ origMeta ((rebroadcast id "now" 3 1 oneEntryState).2).entries 0 =
      some (some "2021-01-01", some "A")
    ∧ origMeta (set_feed_title (some "P") (some "S") oneEntryState).entries 0 =
      some (some "2021-01-01", some "A")
    ∧ origMeta ((set_entry_titles (fun _ f => f) (some "P") (some "S")
        oneEntryState).2).entries 0 = some (some "2021-01-01", some "A") :=
  ⟨rfl,
   (c7_original_metadata_invariant id "now" 3 1 (some "P") (some "S")
      (some "P") (some "S") (fun _ f => f) oneEntryState 0 "2021-01-01" "A"
      rfl).1,
   (c7_original_metadata_invariant id "now" 3 1 (some "P") (some "S")
      (some "P") (some "S") (fun _ f => f) oneEntryState 0 "2021-01-01" "A"
      rfl).2.1,
   (c7_original_metadata_invariant id "now" 3 1 (some "P") (some "S")
      (some "P") (some "S") (fun _ f => f) oneEntryState 0 "2021-01-01" "A"
      rfl).2.2⟩

/-- C6: rebroadcast with a negative count raises ValueError immediately and the
state is returned exactly as it was: no entry's reran flag or pubDate (or
anything else) is touched. -/
theorem c6_negative_count_no_mutation (shuffle : List Nat → List Nat)
    (dt : String) (fuel : Nat) (num : Int) (s : FeedState) (h : num < 0) :
    rebroadcast shuffle dt fuel num s =
      (.error "Cannot select negative number of entries", s) := by
  simp [rebroadcast, h]

/-- Concrete instance for c6_negative_count_no_mutation: rebroadcast(-1) on a
one-entry feed errors and leaves the state untouched. -/
theorem c6_negative_count_witness :
    ((-1 : Int) < 0)
    ∧ rebroadcast id "now" 5 (-1) oneEntryState =
      (.error "Cannot select negative number of entries", oneEntryState) :=
  ⟨by decide,
   c6_negative_count_no_mutation id "now" 5 (-1) oneEntryState (by decide)⟩

/-- A feed state on which the source rebroadcast loop never terminates:
run_forever reads "False" and both entries are already marked reran, so
_entries_to_rerun forever returns the empty list while remaining stays 1. -/
def exhaustedState : FeedState :=
  { channel := { seededChannel with run_forever := some "False" },
    channel_title := some "Some Feed",
    entries :=
      [{ title := some "A", pubDate := some "pA",
         original_pubdate := some "2021-06-01", original_title := some "A",
         reran := some "True" },
       { title := some "B", pubDate := some "pB",
         original_pubdate := some "2021-01-01", original_title := some "B",
         reran := some "True" }] }

theorem exhausted_loop_diverges (shuffle : List Nat → List Nat) (dt : String) :
    ∀ fuel : Nat, rebroadcastLoop shuffle dt fuel 1 [] exhaustedState =
      (.error "diverges", exhaustedState) := by
  intro fuel
  induction fuel with
  | zero => rfl
  | succ f ih => exact ih

/-- C2: the claim (every rebroadcast(count) with count >= 0 terminates, returning
a shorter list once eligible entries are exhausted under run_forever = false)
fails on the code: on exhaustedState the while-loop of rebroadcast makes no
progress, so no finite fuel bound completes the call -- the source loop runs
forever. -/
theorem c2_rebroadcast_diverges (shuffle : List Nat → List Nat) (dt : String)
    (fuel : Nat) :
    rebroadcast shuffle dt fuel 1 exhaustedState =
      (.error "diverges", exhaustedState) := by
  unfold rebroadcast
  rw [if_neg (by decide)]
  exact exhausted_loop_diverges shuffle dt fuel

/-- A feed whose first entry carries the out-of-domain reran text "banana" and
whose second entry is fresh. -/
def bananaState : FeedState :=
  { channel := seededChannel, channel_title := some "Some Feed",
    entries :=
      [{ title := some "A", pubDate := some "pA",
         original_pubdate := some "2021-06-01", original_title := some "A",
         reran := some "banana" },
       { title := some "B", pubDate := some "pB",
         original_pubdate := some "2021-01-01", original_title := some "B",
         reran := some "False" }] }

/-- C5 counterexample: computing the eligible set on a feed whose first entry
stores the reran text "banana" succeeds (returning only the second entry) --
no error is raised for the out-of-domain value, contradicting the claim that
readers treat the domain strictly. -/
theorem c5_strict_domain_counterexample :
    entries_to_rerun bananaState = (.ok [1], bananaState) := rfl

/-- C5 amended: the reader of the reran flag coerces case-insensitively instead
of enforcing the strict domain: an entry with any present text is read
without error as eligible exactly when the text lowercases to "false" (so
"banana" silently counts as already-rerun); only an absent text raises
(AttributeError on None). -/
theorem c5_reran_reader_coerces (e : Entry) (t : String) :
    (e.reran = some t → reran_read e = .ok (lowerStr t == "false"))
    ∧ (e.reran = none → reran_read e = .error "AttributeError") := by
  constructor
  · intro h
    simp [reran_read, h]
  · intro h
    simp [reran_read, h]

/-- Concrete instance for c5_reran_reader_coerces: the "banana" entry is read
without error as not eligible. -/
theorem c5_reran_reader_witness :
    ({ title := some "A", pubDate := some "pA",
       original_pubdate := some "2021-06-01", original_title := some "A",
       reran := some "banana" : Entry }).reran = some "banana"
    ∧ reran_read
        { title := some "A", pubDate := some "pA",
          original_pubdate := some "2021-06-01", original_title := some "A",
          reran := some "banana" } = .ok (lowerStr "banana" == "false") :=
  ⟨rfl,
   (c5_reran_reader_coerces
      { title := some "A", pubDate := some "pA",
        original_pubdate := some "2021-06-01", original_title := some "A",
        reran := some "banana" } "banana").1 rfl⟩

/-- The entry currently reads as eligible: its reran text is present and
lowercases to "false" (the test _entries_to_rerun applies to each entry). -/
def eligB (e : Entry) : Bool :=
  match e.reran with
  | some t => lowerStr t == "false"
  | none => false

/-- The entry is marked rerun with the exact text "True" that
_rebroadcast_entry writes. -/
def spentB (e : Entry) : Bool := e.reran == some "True"

/-- m concatenated copies of List.range n: the selection order produced by m
full-cycle rounds of the rebroadcast loop on an n-entry feed. -/
def repRange (m n : Nat) : List Nat :=
  match m with
  | 0 => []
  | k + 1 => List.range n ++ repRange k n

theorem reran_read_of_eligB (e : Entry) (h : eligB e = true) :
    reran_read e = .ok true := by
  unfold eligB at h
  cases he : e.reran with
  | none => rw [he] at h; simp at h
  | some t =>
      rw [he] at h
      have h' : (lowerStr t == "false") = true := h
      unfold reran_read
      rw [he]
      show Except.ok (lowerStr t == "false") = Except.ok true
      rw [h']

theorem reran_read_of_spentB (e : Entry) (h : spentB e = true) :
    reran_read e = .ok false := by
  unfold spentB at h
  have he : e.reran = some "True" := by simpa using h
  unfold reran_read
  rw [he]
  rfl

theorem not_reran_idx_all_elig :
    ∀ (es : List Entry) (i : Nat), es.all eligB = true →
      not_reran_idx es i = .ok (List.range' i es.length) := by
  intro es
  induction es with
  | nil => intro i _; rfl
  | cons e es ih =>
      intro i h
      simp only [List.all_cons, Bool.and_eq_true] at h
      simp only [not_reran_idx, reran_read_of_eligB e h.1, ih (i + 1) h.2,
        List.length_cons, List.range'_succ, if_true]

theorem not_reran_idx_all_spent :
    ∀ (es : List Entry) (i : Nat), es.all spentB = true →
      not_reran_idx es i = .ok [] := by
  intro es
  induction es with
  | nil => intro i _; rfl
  | cons e es ih =>
      intro i h
      simp only [List.all_cons, Bool.and_eq_true] at h
      simp only [not_reran_idx, reran_read_of_spentB e h.1, ih (i + 1) h.2,
        Bool.false_eq_true, if_false]

theorem entries_to_rerun_all_elig (s : FeedState)
    (h : s.entries.all eligB = true) (hne : s.entries ≠ []) :
    entries_to_rerun s = (.ok (List.range' 0 s.entries.length), s) := by
  have h1 := not_reran_idx_all_elig s.entries 0 h
  have hemp : (List.range' 0 s.entries.length).isEmpty = false := by
    cases hes : s.entries with
    | nil => exact absurd hes hne
    | cons a as => rfl
  simp [entries_to_rerun, h1, hemp]

theorem entries_to_rerun_all_spent (s : FeedState)
    (h : s.entries.all spentB = true) (hrf : run_forever_read s = .ok true) :
    entries_to_rerun s =
      (.ok (List.range s.entries.length), mark_all_not_reran s) := by
  have h1 := not_reran_idx_all_spent s.entries 0 h
  simp only [entries_to_rerun, h1, List.isEmpty_nil, if_true, hrf,
    mark_all_not_reran, List.length_map]

theorem bumpEntry_idem (dt : String) (e : Entry) :
    bumpEntry dt (bumpEntry dt e) = bumpEntry dt e := rfl

theorem broadcastAll_cons (dt : String) (s : FeedState) (i : Nat)
    (is : List Nat) :
    broadcastAll dt s (i :: is) =
      broadcastAll dt (rebroadcast_entry dt s i) is := rfl

theorem broadcastAll_getElem? (dt : String) :
    ∀ (idxs : List Nat) (s : FeedState) (j : Nat),
      ((broadcastAll dt s idxs).entries)[j]? =
        if j ∈ idxs then (s.entries[j]?).map (bumpEntry dt)
        else s.entries[j]? := by
  intro idxs
  induction idxs with
  | nil => intro s j; simp [broadcastAll]
  | cons i is ih =>
      intro s j
      rw [broadcastAll_cons, ih]
      have hset : (rebroadcast_entry dt s i).entries[j]? =
          if i = j then (s.entries[j]?).map (bumpEntry dt)
          else s.entries[j]? := by
        simp [rebroadcast_entry, updateAt_getElem?]
      rw [hset]
      have hcomp : bumpEntry dt ∘ bumpEntry dt = bumpEntry dt :=
        funext (bumpEntry_idem dt)
      by_cases hij : i = j
      · subst hij
        by_cases hiis : i ∈ is <;> cases hx : s.entries[i]? <;>
          simp [hiis, hx, List.mem_cons, hcomp, bumpEntry_idem]
      · have hji : ¬j = i := fun hh => hij hh.symm
        by_cases hjis : j ∈ is <;> cases hx : s.entries[j]? <;>
          simp [hij, hji, hjis, hx, List.mem_cons]

theorem broadcastAll_channel (dt : String) :
    ∀ (idxs : List Nat) (s : FeedState),
      (broadcastAll dt s idxs).channel = s.channel := by
  intro idxs
  induction idxs with
  | nil => intro s; rfl
  | cons i is ih => intro s; rw [broadcastAll_cons, ih]; rfl

theorem updateAt_length :
    ∀ (es : List Entry) (i : Nat) (f : Entry → Entry),
      (updateAt es i f).length = es.length := by
  intro es
  induction es with
  | nil => intro i f; rfl
  | cons e es ih => intro i f; cases i <;> simp [updateAt, ih]

theorem broadcastAll_length (dt : String) :
    ∀ (idxs : List Nat) (s : FeedState),
      (broadcastAll dt s idxs).entries.length = s.entries.length := by
  intro idxs
  induction idxs with
  | nil => intro s; rfl
  | cons i is ih =>
      intro s
      rw [broadcastAll_cons, ih]
      simp [rebroadcast_entry, updateAt_length]

theorem run_forever_read_channel (s s' : FeedState)
    (h : s'.channel = s.channel) :
    run_forever_read s' = run_forever_read s := by
  unfold run_forever_read
  rw [h]

theorem broadcast_range_all_spent (dt : String) (s : FeedState) :
    ((broadcastAll dt s (List.range s.entries.length)).entries).all spentB
      = true := by
  rw [List.all_eq_true]
  intro e he
  obtain ⟨j, hj⟩ := List.mem_iff_getElem?.mp he
  rw [broadcastAll_getElem? dt] at hj
  by_cases hm : j ∈ List.range s.entries.length
  · rw [if_pos hm] at hj
    cases hx : s.entries[j]? with
    | none => rw [hx] at hj; simp at hj
    | some e0 =>
        rw [hx] at hj
        simp only [Option.map_some', Option.some.injEq] at hj
        rw [← hj]
        rfl
  · rw [if_neg hm] at hj
    have hlt : j < s.entries.length := by
      by_contra hge
      rw [List.getElem?_eq_none (Nat.le_of_not_lt hge)] at hj
      exact Option.noConfusion hj
    exact absurd (List.mem_range.mpr hlt) hm

theorem mark_all_length (s : FeedState) :
    (mark_all_not_reran s).entries.length = s.entries.length := by
  simp [mark_all_not_reran]

theorem repRange_zero : ∀ m : Nat, repRange m 0 = [] := by
  intro m
  induction m with
  | zero => rfl
  | succ k ih => simp [repRange, ih]

theorem repRange_length : ∀ m n : Nat, (repRange m n).length = m * n := by
  intro m n
  induction m with
  | zero => simp [repRange]
  | succ k ih =>
      simp only [repRange, List.length_append, List.length_range, ih,
        Nat.succ_mul]
      exact Nat.add_comm n (k * n)

theorem loopSpent (shuffle : List Nat → List Nat) (dt : String) :
    ∀ (j fuel : Nat) (acc : List Nat) (s : FeedState),
      s.entries.all spentB = true → run_forever_read s = .ok true →
      0 < s.entries.length → j ≤ fuel →
      ∃ s', rebroadcastLoop shuffle dt fuel (j * s.entries.length) acc s =
        (.ok (acc ++ repRange j s.entries.length), s') := by
  intro j
  induction j with
  | zero =>
      intro fuel acc s _ _ _ _
      exact ⟨s, by simp [rebroadcastLoop, repRange]⟩
  | succ k ih =>
      intro fuel acc s hsp hrf hN hfuel
      cases fuel with
      | zero => omega
      | succ f =>
          have hkf : k ≤ f := Nat.le_of_succ_le_succ hfuel
          obtain ⟨r, hr⟩ : ∃ r, (k + 1) * s.entries.length = r + 1 := by
            have hp : 0 < (k + 1) * s.entries.length :=
              Nat.mul_pos (Nat.succ_pos k) hN
            exact ⟨(k + 1) * s.entries.length - 1, by omega⟩
          rw [hr]
          have hent := entries_to_rerun_all_spent s hsp hrf
          simp only [rebroadcastLoop, hent]
          have hle : s.entries.length ≤ (k + 1) * s.entries.length :=
            Nat.le_mul_of_pos_left _ (Nat.succ_pos k)
          have hlen : (List.range s.entries.length).length ≤ r + 1 := by
            rw [List.length_range, ← hr]
            exact hle
          rw [if_pos hlen]
          have hrem : r + 1 - (List.range s.entries.length).length =
              k * s.entries.length := by
            rw [List.length_range]
            have hx : r + 1 = k * s.entries.length + s.entries.length := by
              rw [← hr, Nat.succ_mul]
            rw [hx, Nat.add_sub_cancel]
          rw [hrem]
          have hml : (mark_all_not_reran s).entries.length = s.entries.length :=
            mark_all_length s
          have hsp2 : ((broadcastAll dt (mark_all_not_reran s)
              (List.range s.entries.length)).entries).all spentB = true := by
            rw [← hml]
            exact broadcast_range_all_spent dt (mark_all_not_reran s)
          have hch : (broadcastAll dt (mark_all_not_reran s)
              (List.range s.entries.length)).channel = s.channel := by
            rw [broadcastAll_channel]
            rfl
          have hrf2 : run_forever_read (broadcastAll dt (mark_all_not_reran s)
              (List.range s.entries.length)) = .ok true := by
            rw [run_forever_read_channel s _ hch]
            exact hrf
          have hlen2 : (broadcastAll dt (mark_all_not_reran s)
              (List.range s.entries.length)).entries.length =
              s.entries.length := by
            rw [broadcastAll_length, hml]
          obtain ⟨s', hs'⟩ := ih f (acc ++ List.range s.entries.length)
            (broadcastAll dt (mark_all_not_reran s)
              (List.range s.entries.length)) hsp2 hrf2
            (by rw [hlen2]; exact hN) hkf
          rw [hlen2] at hs'
          refine ⟨s', ?_⟩
          rw [hs', List.append_assoc]
          rfl

theorem loopFresh (shuffle : List Nat → List Nat) (dt : String) :
    ∀ (m fuel : Nat) (acc : List Nat) (s : FeedState),
      s.entries.all eligB = true → run_forever_read s = .ok true → m ≤ fuel →
      ∃ s', rebroadcastLoop shuffle dt fuel (m * s.entries.length) acc s =
        (.ok (acc ++ repRange m s.entries.length), s') := by
  intro m fuel acc s hel hrf hm
  rcases Nat.eq_zero_or_pos s.entries.length with hN0 | hN
  · refine ⟨s, ?_⟩
    rw [hN0]
    simp [rebroadcastLoop, repRange_zero]
  · cases m with
    | zero => exact ⟨s, by simp [rebroadcastLoop, repRange]⟩
    | succ k =>
        cases fuel with
        | zero => omega
        | succ f =>
            have hkf : k ≤ f := Nat.le_of_succ_le_succ hm
            have hne : s.entries ≠ [] := by
              intro hx
              rw [hx] at hN
              simp at hN
            have hent := entries_to_rerun_all_elig s hel hne
            rw [← List.range_eq_range'] at hent
            obtain ⟨r, hr⟩ : ∃ r, (k + 1) * s.entries.length = r + 1 := by
              have hp : 0 < (k + 1) * s.entries.length :=
                Nat.mul_pos (Nat.succ_pos k) hN
              exact ⟨(k + 1) * s.entries.length - 1, by omega⟩
            rw [hr]
            simp only [rebroadcastLoop, hent]
            have hle : s.entries.length ≤ (k + 1) * s.entries.length :=
              Nat.le_mul_of_pos_left _ (Nat.succ_pos k)
            have hlen : (List.range s.entries.length).length ≤ r + 1 := by
              rw [List.length_range, ← hr]
              exact hle
            rw [if_pos hlen]
            have hrem : r + 1 - (List.range s.entries.length).length =
                k * s.entries.length := by
              rw [List.length_range]
              have hx : r + 1 = k * s.entries.length + s.entries.length := by
                rw [← hr, Nat.succ_mul]
              rw [hx, Nat.add_sub_cancel]
            rw [hrem]
            have hsp2 : ((broadcastAll dt s
                (List.range s.entries.length)).entries).all spentB = true :=
              broadcast_range_all_spent dt s
            have hch : (broadcastAll dt s
                (List.range s.entries.length)).channel = s.channel :=
              broadcastAll_channel dt _ s
            have hrf2 : run_forever_read (broadcastAll dt s
                (List.range s.entries.length)) = .ok true := by
              rw [run_forever_read_channel s _ hch]
              exact hrf
            have hlen2 : (broadcastAll dt s
                (List.range s.entries.length)).entries.length =
                s.entries.length := broadcastAll_length dt _ s
            obtain ⟨s', hs'⟩ := loopSpent shuffle dt k f
              (acc ++ List.range s.entries.length)
              (broadcastAll dt s (List.range s.entries.length)) hsp2 hrf2
              (by rw [hlen2]; exact hN) hkf
            rw [hlen2] at hs'
            refine ⟨s', ?_⟩
            rw [hs', List.append_assoc]
            rfl

theorem count_range_of_lt :
    ∀ (n i : Nat), i < n → List.count i (List.range n) = 1 := by
  intro n
  induction n with
  | zero => intro i hi; omega
  | succ n ih =>
      intro i hi
      rw [List.range_succ, List.count_append]
      rcases Nat.lt_succ_iff_lt_or_eq.mp hi with hlt | heq
      · have hcnt : List.count i [n] = 0 := by
          rw [List.count_eq_zero]
          intro hmem
          rw [List.mem_singleton] at hmem
          omega
        rw [ih i hlt, hcnt]
      · subst heq
        have h0 : List.count i (List.range i) = 0 :=
          List.count_eq_zero.mpr (by simp)
        simp [h0, List.count_cons]

theorem count_repRange :
    ∀ (m n i : Nat), i < n → List.count i (repRange m n) = m := by
  intro m n i hi
  induction m with
  | zero => simp [repRange]
  | succ k ih =>
      simp only [repRange, List.count_append, ih, count_range_of_lt n i hi]
      exact Nat.add_comm 1 k

/-- C1 amended: on a feed whose entries are all currently eligible and whose
run_forever flag reads true, rebroadcast(k) for k = m * N (N the number of
entries) returns exactly k entries in which every entry appears exactly
m = k / N times, accumulated across the internal reset iterations. -/
theorem c1_full_cycle_multiples (shuffle : List Nat → List Nat) (dt : String)
    (fuel m : Nat) (s : FeedState) (h1 : s.entries.all eligB = true)
    (h2 : run_forever_read s = .ok true) (h3 : m ≤ fuel) :
    ∃ res s',
      rebroadcast shuffle dt fuel ((m * s.entries.length : Nat) : Int) s =
        (.ok res, s')
      ∧ res.length = m * s.entries.length
      ∧ ∀ i, i < s.entries.length → res.count i = m := by
  obtain ⟨s', hs'⟩ := loopFresh shuffle dt m fuel [] s h1 h2 h3
  refine ⟨repRange m s.entries.length, s', ?_, ?_, ?_⟩
  · unfold rebroadcast
    rw [if_neg (by omega), Int.toNat_natCast]
    simpa using hs'
  · exact repRange_length m _
  · intro i hi
    exact count_repRange m _ i hi

/-- A two-entry feed with run_forever = "True" in which entry 0 has already
been rerun and entry 1 is still eligible; entry 1 carries the earlier
original_pubdate. -/
def mixedState : FeedState :=
  { channel := seededChannel, channel_title := some "Some Feed",
    entries :=
      [{ title := some "A", pubDate := some "pA",
         original_pubdate := some "2021-06-01", original_title := some "A",
         reran := some "True" },
       { title := some "B", pubDate := some "pB",
         original_pubdate := some "2021-01-01", original_title := some "B",
         reran := some "False" }] }

/-- C1 counterexample: mixedState has N = 2 entries and run_forever reads true,
and k = 2 is a multiple of N, yet rebroadcast(2) returns [1, 1]: entry 0
appears 0 times instead of the claimed k / N = 1 times (entry 1 appears
twice). The claim fails for feeds whose entries are not all eligible. -/
theorem c1_counterexample_partially_rerun :
    mixedState.entries.length = 2
    ∧ run_forever_read mixedState = .ok true
    ∧ (rebroadcast id "now" 2 2 mixedState).1 = .ok [1, 1]
    ∧ List.count 0 [1, 1] ≠ 2 / 2 :=
  ⟨rfl, rfl, rfl, by decide⟩

/-- A two-entry feed in its freshly-seeded state (both entries eligible). -/
def freshTwoState : FeedState :=
  { channel := seededChannel, channel_title := some "Some Feed",
    entries :=
      [{ title := some "A", pubDate := some "pA",
         original_pubdate := some "2021-06-01", original_title := some "A",
         reran := some "False" },
       { title := some "B", pubDate := some "pB",
         original_pubdate := some "2021-01-01", original_title := some "B",
         reran := some "False" }] }

/-- Concrete instance for c1_full_cycle_multiples: two full cycles over a
fresh two-entry feed. -/
theorem c1_full_cycle_witness :
    freshTwoState.entries.all eligB = true
    ∧ run_forever_read freshTwoState = .ok true
    ∧ (2 : Nat) ≤ 2
    ∧ ∃ res s',
        rebroadcast id "now" 2 ((2 * freshTwoState.entries.length : Nat) : Int)
          freshTwoState = (.ok res, s')
        ∧ res.length = 2 * freshTwoState.entries.length
        ∧ ∀ i, i < freshTwoState.entries.length → res.count i = 2 :=
  ⟨rfl, rfl, by decide,
   c1_full_cycle_multiples id "now" 2 2 freshTwoState rfl rfl (by decide)⟩

theorem keyedDates_fst (s : FeedState) :
    ∀ (l : List Nat) (ps : List (Nat × Nat)),
      keyedDates s l = .ok ps → ps.map Prod.fst = l := by
  intro l
  induction l with
  | nil =>
      intro ps h
      simp only [keyedDates] at h
      injection h with h
      rw [← h]
      rfl
  | cons i is ih =>
      intro ps h
      simp only [keyedDates] at h
      cases hk : get_entry_original_pubdate s i with
      | error m => rw [hk] at h; exact absurd h (by simp)
      | ok k =>
          rw [hk] at h
          cases hrest : keyedDates s is with
          | error m => rw [hrest] at h; exact absurd h (by simp)
          | ok rest =>
              rw [hrest] at h
              injection h with h
              rw [← h, List.map_cons, ih rest hrest]

/-- C4: with chronological order and 0 < count < size of the eligible set (all
of whose original_pubdate texts parse), rebroadcast(count) broadcasts and
returns exactly the first count of the eligible indices stably sorted by
ascending parsed original_pubdate: the count eligible entries with the
smallest dates, in ascending date order (every selected key is bounded by
every unselected key). -/
theorem c4_chronological_selection (shuffle : List Nat → List Nat)
    (dt : String) (fuel count : Nat) (s : FeedState) (elig : List Nat)
    (pairs : List (Nat × Nat)) (h1 : not_reran_idx s.entries 0 = .ok elig)
    (h2 : order_read s = .ok true) (h3 : keyedDates s elig = .ok pairs)
    (h4 : 0 < count) (h5 : count < elig.length) (h6 : 0 < fuel) :
    rebroadcast shuffle dt fuel ((count : Nat) : Int) s =
      (.ok (((pairs.insertionSort dateLe).take count).map Prod.fst),
       broadcastAll dt s (((pairs.insertionSort dateLe).take count).map
         Prod.fst))
    ∧ pairs.map Prod.fst = elig
    ∧ (pairs.insertionSort dateLe).Perm pairs
    ∧ List.Pairwise dateLe ((pairs.insertionSort dateLe).take count)
    ∧ (∀ a ∈ (pairs.insertionSort dateLe).take count,
        ∀ b ∈ (pairs.insertionSort dateLe).drop count, a.2 ≤ b.2)
    ∧ (((pairs.insertionSort dateLe).take count).map Prod.fst).length
        = count := by
  have hfst := keyedDates_fst s elig pairs h3
  have hplen : pairs.length = elig.length := by
    rw [← hfst, List.length_map]
  have hslen : (pairs.insertionSort dateLe).length = pairs.length :=
    (List.perm_insertionSort dateLe pairs).length_eq
  refine ⟨?_, hfst, List.perm_insertionSort dateLe pairs, ?_, ?_, ?_⟩
  · unfold rebroadcast
    rw [if_neg (by omega), Int.toNat_natCast]
    cases fuel with
    | zero => omega
    | succ f =>
        cases count with
        | zero => omega
        | succ c =>
            have hemp : elig.isEmpty = false := by
              cases helig : elig with
              | nil => rw [helig] at h5; simp at h5
              | cons a as => rfl
            have hent : entries_to_rerun s = (.ok elig, s) := by
              simp [entries_to_rerun, h1, hemp]
            simp only [rebroadcastLoop, hent]
            rw [if_neg (by omega)]
            have hsort : sortByDate s elig =
                .ok ((pairs.insertionSort dateLe).map Prod.fst) := by
              simp [sortByDate, h3]
            simp only [h2, hsort]
            rw [← List.map_take, List.nil_append]
  · exact List.Pairwise.take (List.sorted_insertionSort dateLe pairs)
  · have hp : List.Pairwise dateLe
        ((pairs.insertionSort dateLe).take count ++
          (pairs.insertionSort dateLe).drop count) := by
      rw [List.take_append_drop]
      exact List.sorted_insertionSort dateLe pairs
    exact fun a ha b hb => (List.pairwise_append.mp hp).2.2 a ha b hb
  · rw [List.length_map, List.length_take, hslen, hplen]
    exact Nat.min_eq_left (Nat.le_of_lt h5)

/-- Concrete instance for c4_chronological_selection, the spec scenario: a feed
with entries dated 2021-06-01 (index 0) and 2021-01-01 (index 1), order
chronological; rebroadcast(1) selects the 2021-01-01 entry (index 1) first. -/
theorem c4_chronological_witness :
    not_reran_idx freshTwoState.entries 0 = .ok [0, 1]
    ∧ order_read freshTwoState = .ok true
    ∧ keyedDates freshTwoState [0, 1] = .ok [(0, 20210601), (1, 20210101)]
    ∧ ((([((0 : Nat), (20210601 : Nat)),
          ((1 : Nat), (20210101 : Nat))].insertionSort dateLe).take 1).map
        Prod.fst) = [1]
    ∧ (rebroadcast id "now" 1 ((1 : Nat) : Int) freshTwoState =
        (.ok ((([((0 : Nat), (20210601 : Nat)),
            ((1 : Nat), (20210101 : Nat))].insertionSort dateLe).take 1).map
          Prod.fst),
         broadcastAll "now" freshTwoState
           ((([((0 : Nat), (20210601 : Nat)),
              ((1 : Nat), (20210101 : Nat))].insertionSort dateLe).take 1).map
            Prod.fst))
       ∧ [((0 : Nat), (20210601 : Nat)),
          ((1 : Nat), (20210101 : Nat))].map Prod.fst = [0, 1]
       ∧ ([((0 : Nat), (20210601 : Nat)),
           ((1 : Nat), (20210101 : Nat))].insertionSort dateLe).Perm
          [((0 : Nat), (20210601 : Nat)), ((1 : Nat), (20210101 : Nat))]
       ∧ List.Pairwise dateLe
          (([((0 : Nat), (20210601 : Nat)),
             ((1 : Nat), (20210101 : Nat))].insertionSort dateLe).take 1)
       ∧ (∀ a ∈ ([((0 : Nat), (20210601 : Nat)),
            ((1 : Nat), (20210101 : Nat))].insertionSort dateLe).take 1,
           ∀ b ∈ ([((0 : Nat), (20210601 : Nat)),
            ((1 : Nat), (20210101 : Nat))].insertionSort dateLe).drop 1,
           a.2 ≤ b.2)
       ∧ ((([((0 : Nat), (20210601 : Nat)),
            ((1 : Nat), (20210101 : Nat))].insertionSort dateLe).take 1).map
           Prod.fst).length = 1) :=
  ⟨rfl, rfl, rfl, rfl,
   c4_chronological_selection id "now" 1 1 freshTwoState [0, 1]
     [(0, 20210601), (1, 20210101)] rfl rfl rfl (by decide) (by decide)
     (by decide)⟩
